import Mathlib

/-!
Verification of the `precommit.py` README-updating script.

The script reads `README.md` as raw bytes, truncates it at the first
occurrence of the marker line `"## Help overview\n"`, rewrites the file with
the preserved prefix followed by the marker, and then, for each configured
command, invokes it as a subprocess and appends a fenced code block
containing a synthesized echo line and the captured output of the command.

We embed the script shallowly: file contents are lists of bytes
(`List Nat`), command invocation is modelled by pairing each argument list
with its captured output (`some o`) or with `none` when the subprocess
fails to start or exits non-zero, and the run produces the final byte
content of the file together with an optional error.
-/

/-- A byte is a natural number (0..255 in practice). -/
abbrev Byte := Nat

/-- Bytes of a string, one byte per character (faithful for ASCII data,
which is all the script writes besides command output). -/
def strBytes (s : String) : List Byte := s.toList.map Char.toNat

/-- The marker `b"## Help overview\n"` from `update_readme`. -/
def marker : List Byte := strBytes "## Help overview\n"

/-- The configured command list from the source:
`(["cargo","run","--","help"], ["cargo","run","--","topic","chunks"])`. -/
def commands : List (List String) :=
  [["cargo", "run", "--", "help"], ["cargo", "run", "--", "topic", "chunks"]]

/-- Model of `data.split(marker)[0]`: the portion of `content` strictly before the
first occurrence of `m`; the whole of `content` when `m` does not occur. -/
def splitBefore (m : List Byte) : List Byte → List Byte
  | [] => []
  | c :: rest =>
    if m.isPrefixOf (c :: rest) then [] else c :: splitBefore m rest

/-- `m` occurs as a contiguous subsequence of `s` (scan of every start
position, mirroring how the Python `split` finds occurrences). -/
def occursIn (m : List Byte) : List Byte → Bool
  | [] => false
  | c :: rest => m.isPrefixOf (c :: rest) || occursIn m rest

/-- Model of the Python join `" ".join(...)` with a single-space separator. -/
def joinSpace : List String → String
  | [] => ""
  | [t] => t
  | t :: ts => t ++ " " ++ joinSpace ts

/-- The string joined for the echo line:
`" ".join(["wavrw"] + args[3:])`. -/
def echoJoined (args : List String) : String :=
  joinSpace ("wavrw" :: args.drop 3)

/-- Model of `bytes(s, "ascii")`: succeeds with the code points as bytes when every
character is ASCII, fails (UnicodeEncodeError) otherwise. -/
def asciiEncode (s : String) : Option (List Byte) :=
  if s.toList.all (fun c => c.toNat < 128) then
    some (s.toList.map Char.toNat)
  else
    none

/-- The bytes written for one command:
`b"\n```\n$ %s \n%s```\n" % (echo, output)`. -/
def blockBytes (echo output : List Byte) : List Byte :=
  strBytes "\n```\n$ " ++ echo ++ strBytes " \n" ++ output ++ strBytes "```\n"

/-- How a run can abort:  the subprocess raised (non-zero exit or failure
to start), or encoding the echo line to ASCII raised. -/
inductive RunError where
  | commandFailed
  | encodeFailed
deriving DecidableEq

/-- Model of the `for args in commands:` loop.  Each command carries its captured
output, `none` meaning `subprocess.check_output` raised.  Returns the bytes
written by the loop and the error that aborted it, if any.  The subprocess
runs before the echo line is encoded, exactly as in the source. -/
def runCommands : List (List String × Option (List Byte)) → List Byte × Option RunError
  | [] => ([], none)
  | (args, out) :: rest =>
    match out with
    | none => ([], some RunError.commandFailed)
    | some o =>
      match asciiEncode (echoJoined args) with
      | none => ([], some RunError.encodeFailed)
      | some e =>
        let r := runCommands rest
        (blockBytes e o ++ r.1, r.2)

/-- Model of `update_readme`: read the file (`content`), truncate at the marker,
write prefix + marker, then run the loop.  Returns the final byte content
of the file (including everything written before an abort) and the error
that aborted the run, if any. -/
def update_readme (cmds : List (List String × Option (List Byte)))
    (content : List Byte) : List Byte × Option RunError :=
  (splitBefore marker content ++ marker ++ (runCommands cmds).1,
   (runCommands cmds).2)

/-- The block written for a command known to have succeeded. -/
def blockOf (p : List String × List Byte) : List Byte :=
  blockBytes ((asciiEncode (echoJoined p.1)).getD []) p.2

/-- A byte sequence is non-self-overlapping: no nonempty proper prefix of it
is also a suffix-aligned repetition (no period shorter than its length).
Rules out an occurrence straddling the boundary of `P ++ m`. -/
def NoOverlap (m : List Byte) : Prop :=
  ∀ j, 0 < j → j < m.length → m.drop j ≠ m.take (m.length - j)

theorem isPrefixOf_iff_take (m s : List Byte) :
    m.isPrefixOf s = true ↔ s.take m.length = m := by
  induction m generalizing s with
  | nil => simp [ List.isPrefixOf]
  | cons a as ih =>
    cases s with
    | nil => simp [ List.isPrefixOf]
    | cons b bs =>
      simp only [ List.isPrefixOf, Bool.and_eq_true, beq_iff_eq, ih,
        List.take_succ_cons, List.cons.injEq]
      aesop

theorem isPrefixOf_append_self (m t : List Byte) :
    m.isPrefixOf (m ++ t) = true := by
  rw [isPrefixOf_iff_take, List.take_append_eq_append_take,
      Nat.sub_self, List.take_zero, List.append_nil, List.take_length]

theorem occursIn_cons (m : List Byte) (c : Byte) (rest : List Byte) :
    occursIn m (c :: rest)
      = (m.isPrefixOf (c :: rest) || occursIn m rest) := rfl

/-- When the marker does not occur, nothing is truncated. -/
theorem splitBefore_of_not_occurs (m s : List Byte)
    (h : occursIn m s = false) : splitBefore m s = s := by
  induction s with
  | nil => rfl
  | cons c rest ih =>
    rw [occursIn_cons, Bool.or_eq_false_iff] at h
    simp [splitBefore, h.1, ih h.2]

/-- Truncation at the first marker occurrence: when `P` holds no occurrence
and the marker does not overlap itself, splitting `P ++ m ++ Q` keeps
exactly `P`. -/
theorem splitBefore_append (m P Q : List Byte) (hm : m ≠ [])
    (hov : NoOverlap m) (hP : occursIn m P = false) :
    splitBefore m (P ++ (m ++ Q)) = P := by
  induction P with
  | nil =>
    cases m with
    | nil => exact absurd rfl hm
    | cons a as =>
      simp only [List.nil_append, List.cons_append]
      have h := isPrefixOf_append_self (a :: as) Q
      rw [List.cons_append] at h
      simp [splitBefore, h]
  | cons p P' ih =>
    rw [occursIn_cons, Bool.or_eq_false_iff] at hP
    have hnp : m.isPrefixOf (p :: (P' ++ (m ++ Q))) = false := by
      rw [Bool.eq_false_iff]
      intro hx
      rw [isPrefixOf_iff_take, show p :: (P' ++ (m ++ Q))
            = (p :: P') ++ (m ++ Q) from rfl,
          List.take_append_eq_append_take] at hx
      by_cases hle : m.length ≤ (p :: P').length
      · rw [Nat.sub_eq_zero_of_le hle] at hx
        simp only [List.take_zero, List.append_nil] at hx
        have : m.isPrefixOf (p :: P') = true :=
          (isPrefixOf_iff_take m (p :: P')).mpr hx
        rw [this] at hP
        exact absurd hP.1 (by simp)
      · push_neg at hle
        rw [ List.take_of_length_le (Nat.le_of_lt hle),
            List.take_append_eq_append_take,
            Nat.sub_eq_zero_of_le (Nat.sub_le m.length (p :: P').length),
            List.take_zero, List.append_nil] at hx
        have hdrop : m.drop (p :: P').length
            = m.take (m.length - (p :: P').length) := by
          conv_lhs => rw [← hx]
          rw [List.drop_append_eq_append_drop]
          simp
        exact hov (p :: P').length (by simp) hle hdrop
    have ih' := ih hP.2
    simp only [List.cons_append, splitBefore, List.append_eq]
    rw [hnp]
    simp [ih']

/-- The truncated prefix is an initial segment of the original content. -/
theorem splitBefore_take (m s : List Byte) :
    ∃ k, splitBefore m s = s.take k := by
  induction s with
  | nil => exact ⟨0, rfl⟩
  | cons c rest ih =>
    by_cases h : m.isPrefixOf (c :: rest) = true
    · exact ⟨0, by simp [splitBefore, h]⟩
    · obtain ⟨k, hk⟩ := ih
      exact ⟨k + 1, by simp [splitBefore, h, hk, List.take_succ_cons]⟩

/-- The truncated prefix contains no occurrence of the marker. -/
theorem occursIn_splitBefore (m s : List Byte) :
    occursIn m (splitBefore m s) = false := by
  induction s with
  | nil => rfl
  | cons c rest ih =>
    by_cases h : m.isPrefixOf (c :: rest) = true
    · simp [splitBefore, h, occursIn]
    · have hb : m.isPrefixOf (c :: rest) = false := Bool.eq_false_iff.mpr h
      have hpre : m.isPrefixOf (c :: splitBefore m rest) = false := by
        rw [Bool.eq_false_iff]
        intro hx
        obtain ⟨k, hk⟩ := splitBefore_take m rest
        rw [isPrefixOf_iff_take, hk, ← List.take_succ_cons,
            List.take_take] at hx
        have hlen : m.length ≤ k + 1 := by
          have hl := congrArg List.length hx
          rw [List.length_take] at hl
          omega
        rw [min_eq_left hlen] at hx
        exact h ((isPrefixOf_iff_take m (c :: rest)).mpr hx)
      simp [splitBefore, hb, occursIn_cons, hpre, ih]

theorem marker_noOverlap : NoOverlap marker := by
  have h : ∀ j, j < 17 → 0 < j → marker.drop j ≠ marker.take (17 - j) := by
    decide
  intro j h0 hl
  have h17 : marker.length = 17 := by decide
  rw [h17] at hl ⊢
  exact h j hl h0

theorem marker_ne_nil : marker ≠ [] := by decide

theorem toList_append (a b : String) :
    (a ++ b).toList = a.toList ++ b.toList := String.data_append a b

theorem strBytes_append (a b : String) :
    strBytes (a ++ b) = strBytes a ++ strBytes b := by
  simp [strBytes, toList_append]

theorem asciiEncode_isSome_eq (s : String) (h : (asciiEncode s).isSome) :
    asciiEncode s = some (strBytes s) := by
  unfold asciiEncode at h ⊢
  by_cases hc : (s.toList.all fun c => c.toNat < 128) = true
  · rw [if_pos hc]
    rfl
  · rw [if_neg hc] at h
    simp at h

theorem asciiEncode_eq_none_of_bad (s : String) (c : Char)
    (hc : c ∈ s.toList) (hb : 128 ≤ c.toNat) : asciiEncode s = none := by
  unfold asciiEncode
  rw [if_neg]
  intro hall
  rw [List.all_eq_true] at hall
  have h2 := hall c hc
  rw [decide_eq_true_iff] at h2
  omega

theorem asciiEncode_of_ascii (s : String)
    (h : ∀ c ∈ s.toList, c.toNat < 128) : (asciiEncode s).isSome := by
  unfold asciiEncode
  have hc : (s.toList.all fun c => c.toNat < 128) = true := by
    rw [List.all_eq_true]
    intro c hcm
    rw [decide_eq_true_iff]
    exact h c hcm
  rw [if_pos hc]
  rfl

/-- A character of an element of `L` is a character of `" ".join(L)`. -/
theorem mem_joinSpace (L : List String) (t : String) (ht : t ∈ L)
    (c : Char) (hc : c ∈ t.toList) : c ∈ (joinSpace L).toList := by
  induction L with
  | nil => cases ht
  | cons x xs ih =>
    cases xs with
    | nil =>
      rw [List.mem_singleton] at ht
      subst ht
      exact hc
    | cons y ys =>
      rw [List.mem_cons] at ht
      simp only [joinSpace, toList_append, List.mem_append]
      cases ht with
      | inl h => subst h; exact Or.inl (Or.inl hc)
      | inr h => exact Or.inr (ih h)

/-- The join `" ".join(L)` is ASCII when every element of `L` is. -/
theorem joinSpace_ascii (L : List String)
    (h : ∀ t ∈ L, ∀ c ∈ t.toList, c.toNat < 128) :
    ∀ c ∈ (joinSpace L).toList, c.toNat < 128 := by
  induction L with
  | nil => intro c hc; cases hc
  | cons x xs ih =>
    cases xs with
    | nil =>
      intro c hc
      exact h x (by simp) c hc
    | cons y ys =>
      intro c hc
      simp only [joinSpace, toList_append, List.mem_append] at hc
      rcases hc with (hx | hsp) | hrest
      · exact h x (by simp) c hx
      · have : c = ' ' := by simpa using hsp
        subst this
        decide
      · exact ih (fun t ht => h t (List.mem_cons_of_mem x ht)) c hrest

/-- Running the loop over commands that all succeed with ASCII echo lines,
followed by any tail, writes the block of each command in order and then the
bytes of the tail, with the error of the tail. -/
theorem runCommands_append_ok (done : List (List String × List Byte))
    (tail : List (List String × Option (List Byte)))
    (h : ∀ p ∈ done, (asciiEncode (echoJoined p.1)).isSome) :
    runCommands ((done.map fun p => (p.1, some p.2)) ++ tail)
      = ((done.map blockOf).flatten ++ (runCommands tail).1,
         (runCommands tail).2) := by
  induction done with
  | nil => simp
  | cons p ps ih =>
    obtain ⟨e, he⟩ := Option.isSome_iff_exists.mp (h p (by simp))
    have ih' := ih fun q hq => h q (List.mem_cons_of_mem p hq)
    simp only [List.map_cons, List.cons_append, runCommands, he,
      List.flatten_cons, List.append_eq]
    rw [ih']
    simp [blockOf, he, List.append_assoc]

/-- A run over a single successful command with an ASCII echo line. -/
theorem runCommands_single (args : List String) (o : List Byte)
    (h : (asciiEncode (echoJoined args)).isSome) :
    runCommands [(args, some o)]
      = (blockBytes (strBytes (echoJoined args)) o, none) := by
  have he := asciiEncode_isSome_eq _ h
  simp [runCommands, he]

/-- An all-ASCII command list can never abort with an encoding error. -/
theorem no_encodeFailed_of_ascii
    (cmds : List (List String × Option (List Byte)))
    (h : ∀ p ∈ cmds, ∀ t ∈ p.1, ∀ c ∈ t.toList, c.toNat < 128) :
    (runCommands cmds).2 ≠ some RunError.encodeFailed := by
  induction cmds with
  | nil => simp [runCommands]
  | cons p ps ih =>
    obtain ⟨a, o⟩ := p
    cases o with
    | none => simp [runCommands]
    | some ob =>
      have hs : (asciiEncode (echoJoined a)).isSome := by
        apply asciiEncode_of_ascii
        apply joinSpace_ascii
        intro t ht
        rw [List.mem_cons] at ht
        cases ht with
        | inl hw => subst hw; decide
        | inr hd =>
          exact h (a, some ob) (by simp) t (List.mem_of_mem_drop hd)
      obtain ⟨e, he⟩ := Option.isSome_iff_exists.mp hs
      have ih' := ih fun q hq => h q (List.mem_cons_of_mem _ hq)
      simp [runCommands, he, ih']

/-- C1: for file content `P ++ marker ++ Q` with no marker occurrence in
`P`, `update` yields `P ++ marker ++ <regenerated section>`; the result
does not mention `Q`, so it is independent of the original value of `Q`. -/
theorem c1_preamble_preserved (cmds : List (List String × Option (List Byte)))
    (P Q : List Byte) (h : occursIn marker P = false) :
    update_readme cmds (P ++ (marker ++ Q))
      = (P ++ marker ++ (runCommands cmds).1, (runCommands cmds).2) := by
  unfold update_readme
  rw [splitBefore_append marker P Q marker_ne_nil marker_noOverlap h]

theorem c1_preamble_preserved_witness :
    occursIn marker (strBytes "Title\n\n") = false
    ∧ update_readme [] (strBytes "Title\n\n" ++ (marker ++ strBytes "OLD"))
        = (strBytes "Title\n\n" ++ marker ++ (runCommands []).1,
           (runCommands []).2) :=
  ⟨by decide,
   c1_preamble_preserved [] (strBytes "Title\n\n") (strBytes "OLD") (by decide)⟩

/-- C3: running `update` twice with the same command list (hence the same
captured outputs) leaves the file content after the second run
byte-identical to the content after the first run, for every initial
content. -/
theorem c3_idempotent (cmds : List (List String × Option (List Byte)))
    (content : List Byte) :
    (update_readme cmds (update_readme cmds content).1).1
      = (update_readme cmds content).1 := by
  unfold update_readme
  have h := splitBefore_append marker (splitBefore marker content)
    (runCommands cmds).1 marker_ne_nil marker_noOverlap
    (occursIn_splitBefore marker content)
  rw [List.append_assoc (splitBefore marker content) marker
      (runCommands cmds).1, h, List.append_assoc]

/-- C4: for file content `C` with no marker occurrence, `update` yields
`C ++ marker ++ <regenerated section>`: the entire original content is
kept as the prefix (no truncation) and the marker plus the regenerated
blocks are appended. -/
theorem c4_marker_absent (cmds : List (List String × Option (List Byte)))
    (C : List Byte) (h : occursIn marker C = false) :
    update_readme cmds C
      = (C ++ marker ++ (runCommands cmds).1, (runCommands cmds).2) := by
  unfold update_readme
  rw [splitBefore_of_not_occurs marker C h]

theorem c4_marker_absent_witness :
    occursIn marker (strBytes "No marker here\n") = false
    ∧ update_readme [] (strBytes "No marker here\n")
        = (strBytes "No marker here\n" ++ marker ++ (runCommands []).1,
           (runCommands []).2) :=
  ⟨by decide, c4_marker_absent [] (strBytes "No marker here\n") (by decide)⟩

/-- C5: when every command succeeds (and its echo line encodes), the
regenerated section is exactly the concatenation of one block per command,
in the order the commands were given, with no interleaving. -/
theorem c5_command_order (cs : List (List String × List Byte))
    (h : ∀ p ∈ cs, (asciiEncode (echoJoined p.1)).isSome) :
    runCommands (cs.map fun p => (p.1, some p.2))
      = ((cs.map blockOf).flatten, none) := by
  have hr := runCommands_append_ok cs [] h
  have h0 : runCommands ([] : List (List String × Option (List Byte)))
      = ([], none) := rfl
  rw [h0] at hr
  simpa using hr

theorem c5_command_order_witness :
    (∀ p ∈ [(["cargo", "run", "--", "help"], strBytes "H\n"),
            (["cargo", "run", "--", "topic", "chunks"], strBytes "T\n")],
       (asciiEncode (echoJoined p.1)).isSome)
    ∧ runCommands
        (([(["cargo", "run", "--", "help"], strBytes "H\n"),
           (["cargo", "run", "--", "topic", "chunks"], strBytes "T\n")]).map
          fun p => (p.1, some p.2))
      = ((([(["cargo", "run", "--", "help"], strBytes "H\n"),
            (["cargo", "run", "--", "topic", "chunks"], strBytes "T\n")]).map
            blockOf).flatten, none) :=
  ⟨by decide,
   c5_command_order
     [(["cargo", "run", "--", "help"], strBytes "H\n"),
      (["cargo", "run", "--", "topic", "chunks"], strBytes "T\n")]
     (by decide)⟩

/-- C6: when a command fails (cannot start or exits non-zero), the run
aborts with the command-failure error; commands after it contribute
nothing (the result does not mention `rest`), and the output of the failing
command is not written. -/
theorem c6_failure_aborts (done : List (List String × List Byte))
    (args : List String) (rest : List (List String × Option (List Byte)))
    (content : List Byte)
    (h : ∀ p ∈ done, (asciiEncode (echoJoined p.1)).isSome) :
    update_readme ((done.map fun p => (p.1, some p.2)) ++ (args, none) :: rest)
        content
      = (splitBefore marker content ++ marker ++ (done.map blockOf).flatten,
         some RunError.commandFailed) := by
  unfold update_readme
  rw [runCommands_append_ok done ((args, none) :: rest) h]
  have ht : runCommands ((args, none) :: rest)
      = ([], some RunError.commandFailed) := rfl
  rw [ht]
  simp

theorem c6_failure_aborts_witness :
    (∀ p ∈ ([] : List (List String × List Byte)),
       (asciiEncode (echoJoined p.1)).isSome)
    ∧ update_readme
        ((([] : List (List String × List Byte)).map fun p => (p.1, some p.2))
          ++ (["cargo", "run", "--", "help"], none) :: [])
        (strBytes "Hi\n")
      = (splitBefore marker (strBytes "Hi\n") ++ marker
          ++ (([] : List (List String × List Byte)).map blockOf).flatten,
         some RunError.commandFailed) :=
  ⟨by simp,
   c6_failure_aborts [] (["cargo", "run", "--", "help"]) []
     (strBytes "Hi\n") (by simp)⟩

/-- C7: no rollback on failure: with two commands where the first succeeds
and the second fails, the final content holds the preserved prefix, the
marker, and the complete block of the first command. -/
theorem c7_no_rollback (content : List Byte) (a1 : List String)
    (o1 : List Byte) (a2 : List String)
    (h : (asciiEncode (echoJoined a1)).isSome) :
    update_readme [(a1, some o1), (a2, none)] content
      = (splitBefore marker content ++ marker ++ blockOf (a1, o1),
         some RunError.commandFailed) := by
  have hr := runCommands_append_ok [(a1, o1)] [(a2, none)]
    (by
      intro p hp
      rw [List.mem_singleton] at hp
      subst hp
      exact h)
  have hlist : (([(a1, o1)].map fun p => (p.1, some p.2)) ++ [(a2, none)])
      = [(a1, some o1), (a2, none)] := rfl
  rw [hlist] at hr
  unfold update_readme
  rw [hr]
  have ht : runCommands [(a2, none)] = ([], some RunError.commandFailed) := rfl
  rw [ht]
  simp

theorem c7_no_rollback_witness :
    (asciiEncode (echoJoined ["cargo", "run", "--", "help"])).isSome
    ∧ update_readme
        [(["cargo", "run", "--", "help"], some (strBytes "usage\n")),
         (["cargo", "run", "--", "topic", "chunks"], none)]
        (strBytes "Title\n\n## Help overview\nOLD\n")
      = (splitBefore marker (strBytes "Title\n\n## Help overview\nOLD\n")
          ++ marker
          ++ blockOf (["cargo", "run", "--", "help"], strBytes "usage\n"),
         some RunError.commandFailed) :=
  ⟨by decide,
   c7_no_rollback (strBytes "Title\n\n## Help overview\nOLD\n")
     ["cargo", "run", "--", "help"] (strBytes "usage\n")
     ["cargo", "run", "--", "topic", "chunks"] (by decide)⟩

/-- C8: the echo line is written as the bytes of `$ ` followed by `wavrw` joined with
the tokens from index 3 onward by single spaces, then one space character
(byte 32), then the newline (byte 10): every echo line carries a trailing
space before its newline. -/
theorem c8_echo_trailing_space (args : List String) (o : List Byte)
    (h : (asciiEncode (echoJoined args)).isSome) :
    runCommands [(args, some o)]
      = (strBytes "\n```\n"
          ++ (strBytes "$ " ++ strBytes (joinSpace ("wavrw" :: args.drop 3))
              ++ [32] ++ [10])
          ++ o ++ strBytes "```\n", none) := by
  rw [runCommands_single args o h]
  unfold blockBytes echoJoined
  rw [show strBytes "\n```\n$ " = strBytes "\n```\n" ++ strBytes "$ " from
        by decide,
      show strBytes " \n" = [32] ++ [10] from by decide]
  simp [List.append_assoc]

theorem c8_echo_trailing_space_witness :
    (asciiEncode (echoJoined ["cargo", "run", "--", "help"])).isSome
    ∧ runCommands [(["cargo", "run", "--", "help"], some (strBytes "out\n"))]
      = (strBytes "\n```\n"
          ++ (strBytes "$ "
              ++ strBytes (joinSpace
                  ("wavrw" :: (["cargo", "run", "--", "help"]).drop 3))
              ++ [32] ++ [10])
          ++ strBytes "out\n" ++ strBytes "```\n", none) :=
  ⟨by decide,
   c8_echo_trailing_space ["cargo", "run", "--", "help"] (strBytes "out\n")
     (by decide)⟩

/-- C9: the closing fence bytes (96, 96, 96 then newline 10) are written
immediately after the last output byte, with no newline inserted between
the raw output and the delimiter; the delimiter starts its own line only
when the output itself ends with a newline. -/
theorem c9_output_then_fence (args : List String) (o : List Byte)
    (h : (asciiEncode (echoJoined args)).isSome) :
    runCommands [(args, some o)]
      = (strBytes "\n```\n$ " ++ strBytes (echoJoined args) ++ strBytes " \n"
          ++ (o ++ (96 :: 96 :: 96 :: [10])), none) := by
  rw [runCommands_single args o h]
  unfold blockBytes
  rw [show strBytes "```\n" = 96 :: 96 :: 96 :: [10] from by decide]
  simp [List.append_assoc]

theorem c9_output_then_fence_witness :
    (asciiEncode (echoJoined ["cargo", "run", "--", "help"])).isSome
    ∧ runCommands [(["cargo", "run", "--", "help"], some (strBytes "no nl"))]
      = (strBytes "\n```\n$ "
          ++ strBytes (echoJoined ["cargo", "run", "--", "help"])
          ++ strBytes " \n"
          ++ (strBytes "no nl" ++ (96 :: 96 :: 96 :: [10])), none) :=
  ⟨by decide,
   c9_output_then_fence ["cargo", "run", "--", "help"] (strBytes "no nl")
     (by decide)⟩

/-- C2 as stated is false: the echo line is not `$ wavrw help` followed by
a newline; the script writes an extra space before the newline, so the
claimed exact final content differs from the actual one. -/
theorem c2_counterexample :
    update_readme
        [(["cargo", "run", "--", "help"], some (strBytes "usage: foo\n"))]
        (strBytes "Title\n\n## Help overview\nOLD STUFF\n")
      ≠ (strBytes "Title\n\n## Help overview\n\n```\n$ wavrw help\nusage: foo\n```\n",
         none) := by decide

/-- C2 amended: the block written for a command is exactly a blank line,
the opening fence, the echo line `$ wavrw <args>` with a trailing space,
a newline, the raw output bytes verbatim, and the closing fence with a
newline; in the concrete scenario the final content is
`Title\n\n## Help overview\n\n(fence)\n$ wavrw help \nusage: foo\n(fence)\n`. -/
theorem c2_block_format_amended (args : List String) (o : List Byte)
    (h : (asciiEncode (echoJoined args)).isSome) :
    runCommands [(args, some o)]
      = (strBytes "\n" ++ strBytes "```\n"
          ++ strBytes ("$ " ++ joinSpace ("wavrw" :: args.drop 3) ++ " ")
          ++ strBytes "\n" ++ o ++ strBytes "```\n", none)
    ∧ update_readme
        [(["cargo", "run", "--", "help"], some (strBytes "usage: foo\n"))]
        (strBytes "Title\n\n## Help overview\nOLD STUFF\n")
      = (strBytes "Title\n\n## Help overview\n\n```\n$ wavrw help \nusage: foo\n```\n",
         none) := by
  constructor
  · rw [runCommands_single args o h]
    unfold blockBytes echoJoined
    rw [strBytes_append, strBytes_append]
    rw [show strBytes "\n```\n$ "
          = strBytes "\n" ++ strBytes "```\n" ++ strBytes "$ " from by decide,
        show strBytes " \n" = strBytes " " ++ strBytes "\n" from by decide]
    simp [List.append_assoc]
  · decide

theorem c2_block_format_amended_witness :
    (asciiEncode (echoJoined ["cargo", "run", "--", "help"])).isSome
    ∧ ((runCommands
          [(["cargo", "run", "--", "help"], some (strBytes "usage: foo\n"))]
        = (strBytes "\n" ++ strBytes "```\n"
            ++ strBytes ("$ "
                ++ joinSpace ("wavrw" :: (["cargo", "run", "--", "help"]).drop 3)
                ++ " ")
            ++ strBytes "\n" ++ strBytes "usage: foo\n" ++ strBytes "```\n",
           none))
      ∧ update_readme
          [(["cargo", "run", "--", "help"], some (strBytes "usage: foo\n"))]
          (strBytes "Title\n\n## Help overview\nOLD STUFF\n")
        = (strBytes "Title\n\n## Help overview\n\n```\n$ wavrw help \nusage: foo\n```\n",
           none)) :=
  ⟨by decide,
   c2_block_format_amended ["cargo", "run", "--", "help"]
     (strBytes "usage: foo\n") (by decide)⟩

/-- C10: a non-ASCII character among the tokens of a command from index 3 onward
makes the echo-line encoding fail; the run aborts at that command with the
encoding error, after the prefix, marker and the blocks of every earlier command
have been written (and after the failing command itself ran, its output
discarded).  For the two configured commands, whose tokens are all ASCII,
this branch is unreachable whatever their outputs. -/
theorem c10_nonascii_encode_abort (done : List (List String × List Byte))
    (args : List String) (o : List Byte)
    (rest : List (List String × Option (List Byte))) (content : List Byte)
    (o1 o2 : Option (List Byte))
    (hdone : ∀ p ∈ done, (asciiEncode (echoJoined p.1)).isSome)
    (hbad : ∃ t ∈ args.drop 3, ∃ c ∈ t.toList, 128 ≤ c.toNat) :
    update_readme ((done.map fun p => (p.1, some p.2)) ++ (args, some o) :: rest)
        content
      = (splitBefore marker content ++ marker ++ (done.map blockOf).flatten,
         some RunError.encodeFailed)
    ∧ (runCommands (commands.zip [o1, o2])).2 ≠ some RunError.encodeFailed := by
  constructor
  · obtain ⟨t, ht, c, hc, hb⟩ := hbad
    have hnone : asciiEncode (echoJoined args) = none :=
      asciiEncode_eq_none_of_bad _ c
        (mem_joinSpace ("wavrw" :: args.drop 3) t
          (List.mem_cons_of_mem _ ht) c hc) hb
    have htail : runCommands ((args, some o) :: rest)
        = ([], some RunError.encodeFailed) := by
      simp [runCommands, hnone]
    unfold update_readme
    rw [runCommands_append_ok done ((args, some o) :: rest) hdone, htail]
    simp
  · apply no_encodeFailed_of_ascii
    intro p hp
    have hz : commands.zip [o1, o2]
        = [(["cargo", "run", "--", "help"], o1),
           (["cargo", "run", "--", "topic", "chunks"], o2)] := rfl
    rw [hz, List.mem_cons, List.mem_singleton] at hp
    cases hp with
    | inl h1 =>
      subst h1
      show ∀ t ∈ (["cargo", "run", "--", "help"] : List String),
        ∀ c ∈ t.toList, c.toNat < 128
      decide
    | inr h2 =>
      subst h2
      show ∀ t ∈ (["cargo", "run", "--", "topic", "chunks"] : List String),
        ∀ c ∈ t.toList, c.toNat < 128
      decide

theorem c10_nonascii_encode_abort_witness :
    (∀ p ∈ ([] : List (List String × List Byte)),
       (asciiEncode (echoJoined p.1)).isSome)
    ∧ (∃ t ∈ (["cargo", "run", "--", "hélp"] : List String).drop 3,
         ∃ c ∈ t.toList, 128 ≤ c.toNat)
    ∧ (update_readme
        ((([] : List (List String × List Byte)).map fun p => (p.1, some p.2))
          ++ (["cargo", "run", "--", "hélp"], some (strBytes "out\n")) :: [])
        (strBytes "Hi\n")
      = (splitBefore marker (strBytes "Hi\n") ++ marker
          ++ (([] : List (List String × List Byte)).map blockOf).flatten,
         some RunError.encodeFailed)
      ∧ (runCommands (commands.zip [none, none])).2
          ≠ some RunError.encodeFailed) :=
  ⟨by simp, by decide,
   c10_nonascii_encode_abort [] ["cargo", "run", "--", "hélp"]
     (strBytes "out\n") [] (strBytes "Hi\n") none none (by simp) (by decide)⟩
